import Mathlib

/-!
Verification of the `no-plain-query-keys` lint rule
(`src/rules/no-plain-query-keys.ts`).

The rule walks a parsed ESTree syntax tree, flags "raw" query-key
expressions (array or string literals) at key-bearing sites, and
suppresses property-site reports while inside a `queryOptions(...)`
wrapper call.

We give a shallow embedding of the fragment of ESTree the rule
inspects, translate the rule's helper predicates and its three
visitors (`CallExpression` enter, `CallExpression:exit`, `Property`)
into pure Lean functions, and model ESLint's traversal as an explicit
depth-first walk threading the rule's single piece of mutable state
(the `inQueryOptionsCall` boolean) and accumulating reported nodes in
traversal order.
-/

namespace RQK

/-!
The expression language. This mirrors the ESTree node kinds the rule
distinguishes: `Identifier`, (non-computed) `MemberExpression`,
`CallExpression`, `ArrayExpression` (whose elements may be spreads),
string `Literal`s, and the shapes the rule falls through on (numeric /
boolean / null literals, template literals, object literals, arrow
functions).  Lists are hand-rolled so that all recursion below is
structural.  An arrow function's body is modelled as the list of its
expression statements.
-/

mutual

inductive Expr : Type where
| ident (name : String)
| member (obj : Expr) (propName : String)
| call (callee : Expr) (args : ExprList)
| arrayLit (elements : ElemList)
| strLit (value : String)
| numLit (value : Int)
| boolLit (value : Bool)
| nullLit
| templateLit
| objectLit (props : PropList)
| arrow (body : ExprList)

inductive ExprList : Type where
| nil
| cons (head : Expr) (tail : ExprList)

inductive ArrayElement : Type where
| elem (e : Expr)
| spread (e : Expr)

inductive ElemList : Type where
| nil
| cons (head : ArrayElement) (tail : ElemList)

inductive ObjProperty : Type where
| prop (key : String) (value : Expr)

inductive PropList : Type where
| nil
| cons (head : ObjProperty) (tail : PropList)

end

/-- Source constant `QUERY_CLIENT_OBJ_NAME = "queryClient"`. -/
def QUERY_CLIENT_OBJ_NAME : String := "queryClient"

/-- Source constant `QUERY_KEY_PROPERTY_NAME = "queryKey"`. -/
def QUERY_KEY_PROPERTY_NAME : String := "queryKey"

/-- Source constant `MUTATION_KEY_PROPERTY_NAME = "mutationKey"`. -/
def MUTATION_KEY_PROPERTY_NAME : String := "mutationKey"

/-- Source constant `QUERY_OPTIONS_CALLEE_NAME = "queryOptions"`. -/
def QUERY_OPTIONS_CALLEE_NAME : String := "queryOptions"

/-- The single `queryKeyMethods` set built in `create` — the rule uses one
merged set for both `queryClient` methods and bare hook names. -/
def queryKeyMethods : List String :=
  ["setQueryData", "getQueryData", "invalidateQueries", "refetchQueries",
   "removeQueries", "resetQueries", "cancelQueries", "isFetching",
   "prefetchQuery", "fetchQuery", "fetchInfiniteQuery",
   "useQuery", "useInfiniteQuery", "useMutation"]

/-- The rule's options schema, `schema: []` in `meta` — the rule declares
no configuration options. -/
def ruleSchema : List Unit := []

/-- The rule's `defaultOptions: []`. -/
def defaultOptions : List Unit := []

/-- Source helper `isRawKeyDisallowed`: an `ArrayExpression` (whatever its
elements) or a string `Literal` is a disallowed raw key; every other
shape is not. -/
def isRawKeyDisallowed : Expr → Bool
| .arrayLit _ => true
| .strLit _ => true
| _ => false

/-- Source helper `isValidKeyFactoryUsage`: `MemberExpression`,
`CallExpression` and `Identifier` shapes are valid factory usages. -/
def isValidKeyFactoryUsage : Expr → Bool
| .member _ _ => true
| .call _ _ => true
| .ident _ => true
| _ => false

/-- The callee test used by both the `CallExpression` enter and exit
visitors to toggle `inQueryOptionsCall`: the callee is an `Identifier`
named `QUERY_OPTIONS_CALLEE_NAME`. -/
def isQueryOptionsCallee : Expr → Bool
| .ident n => n = QUERY_OPTIONS_CALLEE_NAME
| _ => false

/-- The `methodOrHookName` computation of the `CallExpression` visitor:
`some name` when the callee is a member access `queryClient.m` with `m`
in `queryKeyMethods`, or a bare identifier whose name is in
`queryKeyMethods`; `none` otherwise. -/
def methodOrHookName : Expr → Option String
| .member (.ident obj) p =>
    if obj = QUERY_CLIENT_OBJ_NAME ∧ p ∈ queryKeyMethods then some p else none
| .ident n => if n ∈ queryKeyMethods then some n else none
| _ => none

/-- Diagnostics emitted by the `CallExpression` enter visitor for a call
with the given callee and arguments, in source order of the visitor's
checks: irrelevant calls and zero-argument calls return nothing; a
first argument that is an `Identifier`, `CallExpression` or
`MemberExpression` returns nothing; otherwise a disallowed raw first
argument is reported unless one of the two `queryOptions` escapes
applies.

The first escape in the source reads the node at character position
`node.range[0] - 1` via `getNodeByRangeIndex` and suppresses when it is
an `ObjectExpression` whose own preceding character lies in a
`queryOptions` call.  In ESTree the innermost node covering the
character before a `CallExpression` is always the enclosing `Property`,
array, call, block or program — never an `ObjectExpression`, since
object-literal children are `Property`/`SpreadElement` nodes whose
ranges cover the surrounding punctuation.  The escape therefore never
fires on a parsed tree, and is modelled as the always-false test below.
The second escape (the call's own callee is `queryOptions`) is
translated literally. -/
def directReports (callee : Expr) (args : ExprList) : List Expr :=
  match methodOrHookName callee with
  | none => []
  | some _ =>
    match args with
    | .nil => []
    | .cons firstArg _ =>
      match firstArg with
      | .ident _ => []
      | .call _ _ => []
      | .member _ _ => []
      | _ =>
        if isRawKeyDisallowed firstArg then
          if False then []
          else if isQueryOptionsCallee callee then []
          else [firstArg]
        else []

/-- Diagnostics emitted by the `Property` visitor for a property with the
given key name and value, given the current `inQueryOptionsCall` flag:
a `queryKey`/`mutationKey` property is skipped entirely while the flag
is set, and otherwise reported exactly when its value is a disallowed
raw key. -/
def propertyReport (key : String) (value : Expr) (flag : Bool) : List Expr :=
  if key = QUERY_KEY_PROPERTY_NAME ∨ key = MUTATION_KEY_PROPERTY_NAME then
    if flag then []
    else if isRawKeyDisallowed value then [value] else []
  else []

/-!
The traversal.  ESLint visits each node, fires enter visitors, recurses
into the children in source order (for a call: callee then arguments;
for a property: key then value), then fires exit visitors.  The only
mutable state is the `inQueryOptionsCall` boolean, set to `true` when a
`queryOptions` call is entered and to `false` when one is exited.  Each
walk function returns the reported nodes in traversal order together
with the flag's final value.
-/

mutual

def walkExpr : Expr → Bool → List Expr × Bool
| .ident _, flag => ([], flag)
| .strLit _, flag => ([], flag)
| .numLit _, flag => ([], flag)
| .boolLit _, flag => ([], flag)
| .nullLit, flag => ([], flag)
| .templateLit, flag => ([], flag)
| .member obj _, flag => walkExpr obj flag
| .arrayLit elements, flag => walkElems elements flag
| .objectLit props, flag => walkProps props flag
| .arrow body, flag => walkExprList body flag
| .call callee args, flag =>
    let flagEnter := if isQueryOptionsCallee callee then true else flag
    let enterReports := directReports callee args
    let calleeResult := walkExpr callee flagEnter
    let argsResult := walkExprList args calleeResult.snd
    let flagExit := if isQueryOptionsCallee callee then false else argsResult.snd
    (enterReports ++ calleeResult.fst ++ argsResult.fst, flagExit)

def walkExprList : ExprList → Bool → List Expr × Bool
| .nil, flag => ([], flag)
| .cons e rest, flag =>
    let r1 := walkExpr e flag
    let r2 := walkExprList rest r1.snd
    (r1.fst ++ r2.fst, r2.snd)

def walkElems : ElemList → Bool → List Expr × Bool
| .nil, flag => ([], flag)
| .cons (.elem e) rest, flag =>
    let r1 := walkExpr e flag
    let r2 := walkElems rest r1.snd
    (r1.fst ++ r2.fst, r2.snd)
| .cons (.spread e) rest, flag =>
    let r1 := walkExpr e flag
    let r2 := walkElems rest r1.snd
    (r1.fst ++ r2.fst, r2.snd)

def walkProps : PropList → Bool → List Expr × Bool
| .nil, flag => ([], flag)
| .cons (.prop k v) rest, flag =>
    let here := propertyReport k v flag
    let r1 := walkExpr v flag
    let r2 := walkProps rest r1.snd
    (here ++ r1.fst ++ r2.fst, r2.snd)

end

/-- One analysis run of the rule on a program (a list of expression
statements): `create` allocates `inQueryOptionsCall := false` fresh,
the tree is walked once, and the reported nodes are returned in
traversal order. -/
def analyze (program : ExprList) : List Expr :=
  (walkExprList program false).fst

/-!
Suppression-flag bookkeeping: `exprHasQO` marks trees containing at
least one call whose callee is the `queryOptions` identifier.  The walk
leaves the flag untouched on subtrees without such a call and always
leaves it `false` after a subtree containing one, because the exit
visitor clears the flag unconditionally on every `queryOptions` call.
-/

mutual

def exprHasQO : Expr → Bool
| .member obj _ => exprHasQO obj
| .call callee args => isQueryOptionsCallee callee || exprHasQO callee || listHasQO args
| .arrayLit elements => elemsHasQO elements
| .objectLit props => propsHasQO props
| .arrow body => listHasQO body
| _ => false

def listHasQO : ExprList → Bool
| .nil => false
| .cons e rest => exprHasQO e || listHasQO rest

def elemsHasQO : ElemList → Bool
| .nil => false
| .cons (.elem e) rest => exprHasQO e || elemsHasQO rest
| .cons (.spread e) rest => exprHasQO e || elemsHasQO rest

def propsHasQO : PropList → Bool
| .nil => false
| .cons (.prop _ v) rest => exprHasQO v || propsHasQO rest

end

mutual

theorem walkExpr_flag : ∀ (e : Expr) (s : Bool),
    (walkExpr e s).snd = (if exprHasQO e then false else s)
| .ident _, s => by simp [walkExpr, exprHasQO]
| .strLit _, s => by simp [walkExpr, exprHasQO]
| .numLit _, s => by simp [walkExpr, exprHasQO]
| .boolLit _, s => by simp [walkExpr, exprHasQO]
| .nullLit, s => by simp [walkExpr, exprHasQO]
| .templateLit, s => by simp [walkExpr, exprHasQO]
| .member obj p, s => by
    have h := walkExpr_flag obj s
    simp [walkExpr, exprHasQO, h]
| .arrayLit elements, s => by
    have h := walkElems_flag elements s
    simp [walkExpr, exprHasQO, h]
| .objectLit props, s => by
    have h := walkProps_flag props s
    simp [walkExpr, exprHasQO, h]
| .arrow body, s => by
    have h := walkExprList_flag body s
    simp [walkExpr, exprHasQO, h]
| .call callee args, s => by
    have h1 := walkExpr_flag callee (if isQueryOptionsCallee callee then true else s)
    have h2 := walkExprList_flag args
      (walkExpr callee (if isQueryOptionsCallee callee then true else s)).snd
    cases hq : isQueryOptionsCallee callee <;>
      cases ha : exprHasQO callee <;>
      cases hb : listHasQO args <;>
      simp_all [walkExpr, exprHasQO]

theorem walkExprList_flag : ∀ (l : ExprList) (s : Bool),
    (walkExprList l s).snd = (if listHasQO l then false else s)
| .nil, s => by simp [walkExprList, listHasQO]
| .cons e rest, s => by
    have h1 := walkExpr_flag e s
    have h2 := walkExprList_flag rest (walkExpr e s).snd
    cases ha : exprHasQO e <;> cases hb : listHasQO rest <;>
      simp_all [walkExprList, listHasQO]

theorem walkElems_flag : ∀ (l : ElemList) (s : Bool),
    (walkElems l s).snd = (if elemsHasQO l then false else s)
| .nil, s => by simp [walkElems, elemsHasQO]
| .cons (.elem e) rest, s => by
    have h1 := walkExpr_flag e s
    have h2 := walkElems_flag rest (walkExpr e s).snd
    cases ha : exprHasQO e <;> cases hb : elemsHasQO rest <;>
      simp_all [walkElems, elemsHasQO]
| .cons (.spread e) rest, s => by
    have h1 := walkExpr_flag e s
    have h2 := walkElems_flag rest (walkExpr e s).snd
    cases ha : exprHasQO e <;> cases hb : elemsHasQO rest <;>
      simp_all [walkElems, elemsHasQO]

theorem walkProps_flag : ∀ (l : PropList) (s : Bool),
    (walkProps l s).snd = (if propsHasQO l then false else s)
| .nil, s => by simp [walkProps, propsHasQO]
| .cons (.prop k v) rest, s => by
    have h1 := walkExpr_flag v s
    have h2 := walkProps_flag rest (walkExpr v s).snd
    cases ha : exprHasQO v <;> cases hb : propsHasQO rest <;>
      simp_all [walkProps, propsHasQO]

end

/-!
Concrete programs used to evaluate the analysis on specific inputs.
Each is written in ESTree shape for a short JavaScript snippet.
-/

/-- The array literal `["users"]`. -/
def usersArray : Expr := .arrayLit (.cons (.elem (.strLit "users")) .nil)

/-- The array literal `["settings"]`. -/
def settingsArray : Expr := .arrayLit (.cons (.elem (.strLit "settings")) .nil)

/-- The array literal `["outer"]`. -/
def outerKeyArray : Expr := .arrayLit (.cons (.elem (.strLit "outer")) .nil)

/-- The array literal `["b"]`. -/
def deepKeyArray : Expr := .arrayLit (.cons (.elem (.strLit "b")) .nil)

/-- Program `queryOptions(queryOptions({ queryKey: ["inner"], queryFn: f }),
{ queryKey: ["outer"] });` — an inner wrapper call nested inside the outer
wrapper call's arguments, followed by a key literal in a later argument
of the outer wrapper. -/
def nestedWrapperProgram : ExprList :=
  .cons
    (.call (.ident "queryOptions")
      (.cons
        (.call (.ident "queryOptions")
          (.cons
            (.objectLit
              (.cons (.prop "queryKey"
                  (.arrayLit (.cons (.elem (.strLit "inner")) .nil)))
                (.cons (.prop "queryFn" (.ident "f")) .nil)))
            .nil))
        (.cons
          (.objectLit (.cons (.prop "queryKey" outerKeyArray) .nil))
          .nil)))
    .nil

/-- Program `queryOptions({ queryFn: () => useQuery({ queryKey: ["b"],
queryFn: g }) });` — a `queryKey` array-literal property nested inside a
tracked hook call inside a callback, all within the wrapper call's
argument subtree (not directly contained by the wrapper call). -/
def deepNestedProgram : ExprList :=
  .cons
    (.call (.ident "queryOptions")
      (.cons
        (.objectLit
          (.cons
            (.prop "queryFn"
              (.arrow
                (.cons
                  (.call (.ident "useQuery")
                    (.cons
                      (.objectLit
                        (.cons (.prop "queryKey" deepKeyArray)
                          (.cons (.prop "queryFn" (.ident "g")) .nil)))
                      .nil))
                  .nil)))
            .nil))
        .nil))
    .nil

/-- Program `setQueryData(["users"], data);` — a bare-identifier call whose
name is a client method, not a hook. -/
def bareMethodProgram : ExprList :=
  .cons
    (.call (.ident "setQueryData")
      (.cons usersArray (.cons (.ident "data") .nil)))
    .nil

/-- Program `useQuery({ queryKey: [], queryFn: fetchData });`. -/
def emptyKeyUseQueryProgram : ExprList :=
  .cons
    (.call (.ident "useQuery")
      (.cons
        (.objectLit
          (.cons (.prop "queryKey" (.arrayLit .nil))
            (.cons (.prop "queryFn" (.ident "fetchData")) .nil)))
        .nil))
    .nil

/-- Program `queryClient.fetchQuery(["users"], () => {
queryClient.invalidateQueries(["settings"]); });` — two independently
nested tracked calls, each with a raw first argument. -/
def nestedClientCallsProgram : ExprList :=
  .cons
    (.call (.member (.ident "queryClient") "fetchQuery")
      (.cons usersArray
        (.cons
          (.arrow
            (.cons
              (.call (.member (.ident "queryClient") "invalidateQueries")
                (.cons settingsArray .nil))
              .nil))
          .nil)))
    .nil

/-- Program `myClient.setQueryData(["users"], data);` — a tracked method
name on a receiver other than `queryClient`. -/
def otherClientRawKeyProgram : ExprList :=
  .cons
    (.call (.member (.ident "myClient") "setQueryData")
      (.cons usersArray (.cons (.ident "data") .nil)))
    .nil

/-- Program `queryClient.invalidateQueries();` — a tracked call with zero
arguments. -/
def zeroArgProgram : ExprList :=
  .cons (.call (.member (.ident "queryClient") "invalidateQueries") .nil) .nil

/-- Program `queryClient.fetchQuery(k, ["settings"]);` — a raw array
literal at the second argument position of a tracked call. -/
def secondArgLiteralProgram : ExprList :=
  .cons
    (.call (.member (.ident "queryClient") "fetchQuery")
      (.cons (.ident "k") (.cons settingsArray .nil)))
    .nil

/-- Claim C1: every array-literal expression at a key-bearing site (a
tracked call's first argument or a `queryKey`/`mutationKey` property
value) is classified a violation regardless of its elements — including
the empty array, the single-empty-string array, and arrays containing
spreads — and likewise every string literal at such a site. -/
theorem c1_raw_literal_sites_violation :
    ∀ (es : ElemList) (s : String) (rest : ExprList),
      isRawKeyDisallowed (.arrayLit es) = true ∧
      isRawKeyDisallowed (.strLit s) = true ∧
      directReports (.member (.ident "queryClient") "getQueryData")
        (.cons (.arrayLit es) rest) = [.arrayLit es] ∧
      directReports (.ident "useQuery")
        (.cons (.arrayLit es) rest) = [.arrayLit es] ∧
      directReports (.member (.ident "queryClient") "invalidateQueries")
        (.cons (.strLit s) rest) = [.strLit s] ∧
      propertyReport QUERY_KEY_PROPERTY_NAME (.arrayLit es) false = [.arrayLit es] ∧
      propertyReport MUTATION_KEY_PROPERTY_NAME (.arrayLit es) false = [.arrayLit es] ∧
      propertyReport QUERY_KEY_PROPERTY_NAME (.strLit s) false = [.strLit s] := by
  intro es s rest
  exact ⟨rfl, rfl, rfl, rfl, rfl, rfl, rfl, rfl⟩

/-- Claim C2, counterexample: in
`queryOptions(queryOptions({ queryKey: ["inner"], queryFn: f }), { queryKey: ["outer"] })`
the key literal `["outer"]` sits in the outer wrapper's arguments after
the inner wrapper call has been exited; the claim says such a tree
produces zero diagnostics, but the analysis reports `["outer"]`,
because exiting the inner wrapper call clears the boolean
`inQueryOptionsCall` flag. -/
theorem c2_nested_wrapper_counterexample :
    analyze nestedWrapperProgram = [outerKeyArray] := rfl

/-- Claim C2, amended: the suppression context is a single boolean flag,
not a depth counter.  A subtree containing no wrapper call leaves the
flag unchanged (so nested non-wrapper calls never lift suppression),
but walking any subtree containing a wrapper call leaves the flag
`false` — exiting an inner wrapper clears an outer wrapper's
suppression early.  Starting from the inactive state the flag is again
inactive at the end of traversal. -/
theorem c2_suppression_flag_behavior :
    ∀ (program : ExprList) (s : Bool),
      (walkExprList program s).snd = (if listHasQO program then false else s) ∧
      (walkExprList program false).snd = false := by
  intro program s
  refine ⟨walkExprList_flag program s, ?_⟩
  rw [walkExprList_flag program false]
  simp

/-- Claim C3, counterexample: in
`queryOptions({ queryFn: () => useQuery({ queryKey: ["b"], queryFn: g }) })`
the `queryKey: ["b"]` property is only nested deeper inside the wrapper
call's argument subtree (inside a callback and a tracked hook call),
not directly contained by the wrapper call; the claim says it is still
reported, but the analysis produces zero diagnostics because the
boolean flag is still set when the property is visited. -/
theorem c3_deep_nested_property_counterexample :
    analyze deepNestedProgram = [] := rfl

/-- Claim C3, amended: property-site suppression is scoped by the flag
alone: a `queryKey`/`mutationKey` property whose value is an array or
string literal is suppressed whenever the suppression flag is set —
anywhere inside a wrapper call's argument subtree, however deeply
nested — and reported whenever the flag is clear, as for a literal
written before the wrapper call. -/
theorem c3_property_suppression_flag_scoped :
    ∀ (k : String) (v : Expr) (es : ElemList) (s : String),
      propertyReport k v true = [] ∧
      propertyReport QUERY_KEY_PROPERTY_NAME (.arrayLit es) false = [.arrayLit es] ∧
      propertyReport MUTATION_KEY_PROPERTY_NAME (.strLit s) false = [.strLit s] := by
  intro k v es s
  refine ⟨?_, rfl, rfl⟩
  unfold propertyReport
  split <;> rfl

/-- Claim C4, counterexample: `setQueryData(["users"], data)` has a bare
identifier callee whose name is a client method, not a hook; the claim
says such a call is irrelevant and produces zero direct-argument
diagnostics, but the rule checks bare identifiers against the single
merged `queryKeyMethods` set and reports `["users"]`. -/
theorem c4_bare_method_name_counterexample :
    methodOrHookName (.ident "setQueryData") = some "setQueryData" ∧
    analyze bareMethodProgram = [usersArray] := ⟨rfl, rfl⟩

/-- Claim C4, amended: a call is relevant exactly when its callee is a
member access on the `queryClient` identifier whose accessed name is in
the merged `queryKeyMethods` set, or a bare identifier whose name is in
that same merged set (which contains the client methods and the hook
names alike); every other call is irrelevant and produces no
direct-argument diagnostics. -/
theorem c4_call_relevance :
    (∀ e : Expr, (methodOrHookName e).isSome = true ↔
        ((∃ p, e = .member (.ident QUERY_CLIENT_OBJ_NAME) p ∧ p ∈ queryKeyMethods) ∨
         (∃ n, e = .ident n ∧ n ∈ queryKeyMethods))) ∧
    (∀ (callee : Expr) (args : ExprList),
        methodOrHookName callee = none → directReports callee args = []) := by
  constructor
  · intro e
    cases e with
    | ident n =>
        by_cases h : n ∈ queryKeyMethods <;> simp [methodOrHookName, h]
    | member obj p =>
        cases obj with
        | ident o =>
            by_cases ho : o = QUERY_CLIENT_OBJ_NAME <;>
              by_cases hp : p ∈ queryKeyMethods <;>
              simp [methodOrHookName, ho, hp]
        | member o q => simp [methodOrHookName]
        | call c a => simp [methodOrHookName]
        | arrayLit es => simp [methodOrHookName]
        | strLit v => simp [methodOrHookName]
        | numLit v => simp [methodOrHookName]
        | boolLit v => simp [methodOrHookName]
        | nullLit => simp [methodOrHookName]
        | templateLit => simp [methodOrHookName]
        | objectLit ps => simp [methodOrHookName]
        | arrow b => simp [methodOrHookName]
    | call c a => simp [methodOrHookName]
    | arrayLit es => simp [methodOrHookName]
    | strLit v => simp [methodOrHookName]
    | numLit v => simp [methodOrHookName]
    | boolLit v => simp [methodOrHookName]
    | nullLit => simp [methodOrHookName]
    | templateLit => simp [methodOrHookName]
    | objectLit ps => simp [methodOrHookName]
    | arrow b => simp [methodOrHookName]
  · intro callee args h
    simp [directReports, h]

/-- Claim C4, witness: the amended relevance theorem applied to a member
call on the non-client receiver `myClient`, which is irrelevant and
yields no direct-argument diagnostic. -/
theorem c4_call_relevance_witness :
    directReports (.member (.ident "myClient") "setQueryData")
      (.cons usersArray .nil) = [] :=
  c4_call_relevance.2 _ _ rfl

/-- Claim C5: the call recognizer never reports an object-literal first
argument itself (authority passes to the property classifier), so
`useQuery({ queryKey: [], queryFn: fetchData })` yields exactly one
diagnostic, located at the empty array; and the two independently
nested tracked calls of the `fetchQuery`/`invalidateQueries` example
each report their own raw argument exactly once. -/
theorem c5_one_diagnostic_per_violation :
    (∀ (callee : Expr) (props : PropList) (rest : ExprList),
        directReports callee (.cons (.objectLit props) rest) = []) ∧
    analyze emptyKeyUseQueryProgram = [.arrayLit .nil] ∧
    analyze nestedClientCallsProgram = [usersArray, settingsArray] := by
  refine ⟨?_, rfl, rfl⟩
  intro callee props rest
  rcases h : methodOrHookName callee with _ | m <;>
    simp [directReports, h, isRawKeyDisallowed]

/-- Claim C6: identifier references, member accesses, and call
expressions (whatever their callee shape) are allowed at every
key-bearing site: as a tracked call's first argument and as a
`queryKey`/`mutationKey` property value they produce no diagnostic, and
`isValidKeyFactoryUsage` classifies all three shapes as valid. -/
theorem c6_indirection_shapes_allowed :
    ∀ (callee : Expr) (rest : ExprList) (k : String) (flag : Bool)
      (n : String) (o : Expr) (p : String) (c : Expr) (cargs : ExprList),
      directReports callee (.cons (.ident n) rest) = [] ∧
      directReports callee (.cons (.member o p) rest) = [] ∧
      directReports callee (.cons (.call c cargs) rest) = [] ∧
      propertyReport k (.ident n) flag = [] ∧
      propertyReport k (.member o p) flag = [] ∧
      propertyReport k (.call c cargs) flag = [] ∧
      isValidKeyFactoryUsage (.ident n) = true ∧
      isValidKeyFactoryUsage (.member o p) = true ∧
      isValidKeyFactoryUsage (.call c cargs) = true := by
  intro callee rest k flag n o p c cargs
  refine ⟨?_, ?_, ?_, ?_, ?_, ?_, rfl, rfl, rfl⟩
  · rcases h : methodOrHookName callee with _ | m <;> simp [directReports, h]
  · rcases h : methodOrHookName callee with _ | m <;> simp [directReports, h]
  · rcases h : methodOrHookName callee with _ | m <;> simp [directReports, h]
  · simp [propertyReport, isRawKeyDisallowed]
  · simp [propertyReport, isRawKeyDisallowed]
  · simp [propertyReport, isRawKeyDisallowed]

/-- Claim C7, counterexample: the rule's options schema is the empty
list, so no `clientIdentifierName` (nor any other option) can be
supplied; a raw key on the non-default receiver in
`myClient.setQueryData(["users"], data)` is not flagged by any
configuration of the analysis. -/
theorem c7_no_options_counterexample :
    ruleSchema = [] ∧ analyze otherClientRawKeyProgram = [] := ⟨rfl, rfl⟩

/-- Claim C7, amended: the analysis accepts no configuration: its options
schema and default options are empty, the cache-client identifier is
fixed to the literal `queryClient`, and the wrapper function name is
fixed to the literal `queryOptions`; tracked-method calls on any other
receiver are never relevant, and only `queryOptions` toggles
suppression. -/
theorem c7_fixed_names_no_configuration :
    ruleSchema = [] ∧ defaultOptions = [] ∧
    QUERY_CLIENT_OBJ_NAME = "queryClient" ∧
    QUERY_OPTIONS_CALLEE_NAME = "queryOptions" ∧
    (∀ p : String, methodOrHookName (.member (.ident "otherClient") p) = none) ∧
    methodOrHookName (.member (.ident "queryClient") "setQueryData") =
      some "setQueryData" ∧
    isQueryOptionsCallee (.ident "queryOptions") = true ∧
    isQueryOptionsCallee (.ident "makeOptions") = false := by
  refine ⟨rfl, rfl, rfl, rfl, ?_, rfl, rfl, rfl⟩
  intro p
  simp [methodOrHookName, QUERY_CLIENT_OBJ_NAME]

/-- Claim C8: the key classifier is total over expression shapes with a
default-allow arm: an expression is a disallowed raw key exactly when
it is an array literal or a string literal, and numeric, boolean, null,
object and template literals produce no diagnostic at either kind of
key-bearing site. -/
theorem c8_default_allow_total :
    (∀ e : Expr, isRawKeyDisallowed e = true ↔
        ((∃ es, e = .arrayLit es) ∨ (∃ s, e = .strLit s))) ∧
    (∀ (i : Int) (b : Bool) (ps : PropList) (k : String) (flag : Bool)
        (callee : Expr) (rest : ExprList),
      propertyReport k (.numLit i) flag = [] ∧
      propertyReport k (.boolLit b) flag = [] ∧
      propertyReport k .nullLit flag = [] ∧
      propertyReport k (.objectLit ps) flag = [] ∧
      propertyReport k .templateLit flag = [] ∧
      directReports callee (.cons (.numLit i) rest) = [] ∧
      directReports callee (.cons .templateLit rest) = []) := by
  constructor
  · intro e
    cases e <;> simp [isRawKeyDisallowed]
  · intro i b ps k flag callee rest
    refine ⟨?_, ?_, ?_, ?_, ?_, ?_, ?_⟩
    · simp [propertyReport, isRawKeyDisallowed]
    · simp [propertyReport, isRawKeyDisallowed]
    · simp [propertyReport, isRawKeyDisallowed]
    · simp [propertyReport, isRawKeyDisallowed]
    · simp [propertyReport, isRawKeyDisallowed]
    · rcases h : methodOrHookName callee with _ | m <;>
        simp [directReports, h, isRawKeyDisallowed]
    · rcases h : methodOrHookName callee with _ | m <;>
        simp [directReports, h, isRawKeyDisallowed]

/-- Claim C9: the analysis is deterministic and stateless: re-running it
on an unchanged tree yields an identical diagnostic sequence, and the
only mutable state — the suppression flag, freshly allocated `false` at
each run — is `false` again at the end of a run, so even a run seeded
with a previous run's final state produces the same diagnostics. -/
theorem c9_stateless_idempotent :
    ∀ program : ExprList,
      analyze program = analyze program ∧
      (walkExprList program false).snd = false ∧
      (walkExprList program (walkExprList program false).snd).fst =
        analyze program := by
  intro program
  have hflag : (walkExprList program false).snd = false := by
    rw [walkExprList_flag program false]
    simp
  exact ⟨rfl, hflag, by rw [hflag]; rfl⟩

/-- Claim C10: only the first argument of a tracked call is inspected as
a direct key candidate: zero-argument calls report nothing, a direct
report is independent of the later arguments and can only be the first
argument itself, and concretely a zero-argument tracked call and a raw
array at the second argument position produce no diagnostics. -/
theorem c10_only_first_argument :
    (∀ callee : Expr, directReports callee .nil = []) ∧
    (∀ (callee a : Expr) (rest : ExprList),
        directReports callee (.cons a rest) =
          directReports callee (.cons a .nil)) ∧
    (∀ (callee a : Expr) (rest : ExprList),
        directReports callee (.cons a rest) = [] ∨
        directReports callee (.cons a rest) = [a]) ∧
    analyze zeroArgProgram = [] ∧
    analyze secondArgLiteralProgram = [] := by
  refine ⟨?_, ?_, ?_, rfl, rfl⟩
  · intro callee
    rcases h : methodOrHookName callee with _ | m <;> simp [directReports, h]
  · intro callee a rest
    rcases h : methodOrHookName callee with _ | m <;> simp [directReports, h]
  · intro callee a rest
    rcases h : methodOrHookName callee with _ | m
    · exact Or.inl (by simp [directReports, h])
    · cases hq : isQueryOptionsCallee callee <;>
        cases a <;>
        simp [directReports, h, hq, isRawKeyDisallowed]

end RQK
